import Mathlib

/-!
Verification of the subtitle-aligner core (`app_windows.py`).

The Python source is embedded shallowly:
* Python `float` arithmetic is modelled by exact rational arithmetic (`ℚ`);
* Python strings are Lean `String`s; `str.split()` and `str.strip()` are
  modelled structurally on the character list, splitting and trimming on
  whitespace characters (`Char.isWhitespace`);
* the stateful loops of `synchronize_with_audio` become explicit
  state-passing recursions over the sentence and block lists, with the
  Python `break` of the inner loop modelled by cutting off the recursion;
* the fallible external audio probe (`ffprobe`) becomes a function of an
  abstract probe outcome;
* the external NLTK sentence tokenizer becomes a function parameter.
-/

namespace AeneasAligner

/-- Helper for `pySplit`: walk the characters, `acc` holding the current
word reversed; whitespace closes the current word (if any). -/
def splitWsGo : List Char → List Char → List String
  | [], acc => if acc.isEmpty then [] else [String.mk acc.reverse]
  | c :: cs, acc =>
    if c.isWhitespace then
      if acc.isEmpty then splitWsGo cs []
      else String.mk acc.reverse :: splitWsGo cs []
    else splitWsGo cs (c :: acc)

/-- Python `text.split()` (no separator argument): split on runs of
whitespace, discarding empty pieces. -/
def pySplit (s : String) : List String :=
  splitWsGo s.data []

/-- Strip leading and trailing whitespace from a character list. -/
def stripList (l : List Char) : List Char :=
  ((l.dropWhile Char.isWhitespace).reverse.dropWhile Char.isWhitespace).reverse

/-- Python `text.strip()` with no argument: remove leading and trailing
whitespace. -/
def pyStrip (s : String) : String :=
  String.mk (stripList s.data)

/-- Python format spec `{n:02}` for the nonnegative values produced by
`format_srt_time`. -/
def pad2 (n : ℕ) : String :=
  if n < 10 then "0" ++ toString n else toString n

/-- Python format spec `{n:03}` for the nonnegative values produced by
`format_srt_time`. -/
def pad3 (n : ℕ) : String :=
  if n < 10 then "00" ++ toString n
  else if n < 100 then "0" ++ toString n
  else toString n

/-- Python `a % b` on floats (for `b > 0`): `a - b * floor (a / b)`. -/
def pyMod (a b : ℚ) : ℚ := a - b * ⌊a / b⌋

/-- Source `format_srt_time` (app_windows.py lines 43-49).
`int(seconds // 3600)` is `⌊seconds / 3600⌋`; `int()` applied to the
remaining components truncates, which on their nonnegative values is the
floor.  `Int.toNat` renders the nonnegative results as naturals for
zero-padding.  The source computes on IEEE binary64 doubles; this
embedding uses exact rationals, so where a claim evaluates the function
at a decimal that is not representable in binary64, the input must be
the exact rational value of the nearest double (see `fl3661999`), at
which the program's float steps happen to be exact. -/
def format_srt_time (seconds : ℚ) : String :=
  let hours := (⌊seconds / 3600⌋).toNat
  let minutes := (⌊pyMod seconds 3600 / 60⌋).toNat
  let secs := (⌊pyMod seconds 60⌋).toNat
  let millis := (⌊pyMod seconds 1 * 1000⌋).toNat
  pad2 hours ++ ":" ++ pad2 minutes ++ ":" ++ pad2 secs ++ "," ++ pad3 millis

/-- Time-format formula as worded by the spec (section 4.5): `hours =
floor(s/3600)`, `minutes = floor((s mod 3600)/60)`, `seconds = floor(s mod
60)`, `millis = floor((s mod 1) * 1000)`, zero-padded `HH:MM:SS,mmm`. -/
def format_srt_time_spec (s : ℚ) : String :=
  pad2 (⌊s / 3600⌋).toNat ++ ":" ++ pad2 (⌊pyMod s 3600 / 60⌋).toNat ++ ":"
    ++ pad2 (⌊pyMod s 60⌋).toNat ++ "," ++ pad3 (⌊pyMod s 1 * 1000⌋).toNat

/-- The exact rational value of the IEEE-754 binary64 double produced by
the Python literal `3661.999`.  The decimal 3661.999 is not representable
in binary64; for values in `[2048, 4096)` a double is an integer multiple
of the ulp `2⁻⁴¹`, and the multiple nearest the decimal is
`8052820962808168 × 2⁻⁴¹ = 3661.99899999999979...`, which lies strictly
below 3661.999 and strictly within half an ulp of it (both facts are
proved in the theorems below), so it is the correctly rounded literal.
The program's subsequent float steps on this value are exact in binary64:
the remainders subtract integers leaving numerators below `2⁵³`, and the
millisecond product `(s % 1) * 1000 = 2196824232296000 × 2⁻⁴¹` is itself
representable, so exact rational evaluation of `format_srt_time` at this
value reproduces the float computation. -/
def fl3661999 : ℚ := 8052820962808168 / 2 ^ 41

/-- Helper for `windows`: fuel-counted structural recursion.  The fuel is
always instantiated with the list length, which suffices because each step
consumes at least one element. -/
def windowsGo {α : Type} (k : ℕ) : ℕ → List α → List (List α)
  | _, [] => []
  | 0, _ :: _ => []
  | fuel + 1, x :: xs => ((x :: xs).take k) :: windowsGo k fuel (xs.drop (k - 1))

/-- Python `[l[i:i+k] for i in range(0, len(l), k)]`: consecutive windows
of `k` elements (the last window may be shorter). -/
def windows {α : Type} (k : ℕ) (l : List α) : List (List α) :=
  windowsGo k l.length l

/-- Source `split_long_sentence` (app_windows.py lines 138-165).  A
subtitle block `[line1, line2]` is a pair of strings.  The loop
`for i in range(0, len(words), 8)` with a conditional `append` is the
`filterMap` over the 8-word windows. -/
def split_long_sentence (sentence : String) : List (String × String) :=
  let words := pySplit sentence
  if 8 ≤ words.length then
    (windows 8 words).filterMap (fun block_words =>
      if 4 ≤ block_words.length then
        some (String.intercalate " " (block_words.take 4),
              String.intercalate " " ((block_words.drop 4).take 4))
      else none)
  else if 4 ≤ words.length then
    [(String.intercalate " " (words.take 4),
      if 4 < words.length then String.intercalate " " ((words.drop 4).take 4) else "")]
  else
    [(String.intercalate " " words, "")]

/-- Source `estimate_duration` (app_windows.py lines 120-136). -/
def estimate_duration (text : String) (wpm : ℚ := 165) : ℚ :=
  let words := pySplit text
  let word_count := words.length
  let wps := wpm / 60
  let duration := (word_count : ℚ) / wps
  let duration := max duration 1.5
  let duration := min duration 6.0
  duration

/-- Source `split_text_into_sentences` (app_windows.py lines 103-118).
Both the NLTK branch (`nltk.sent_tokenize`) and the regex fallback
(`re.split`) produce some list of sentence candidates and then run the
same comprehension `[s.strip() for s in sentences if s.strip()]`; the
tokenizer is abstracted as the parameter `tokenize`. -/
def split_text_into_sentences (tokenize : String → List String) (text : String) :
    List String :=
  if pyStrip text = "" then []
  else ((tokenize text).filter (fun s => pyStrip s ≠ "")).map pyStrip

/-- Outcome of running `ffprobe` in `get_audio_duration` (app_windows.py
lines 90-101): a zero return code with a parsed duration, a nonzero
return code, or an exception (tool unavailable / timeout). -/
inductive ProbeOutcome : Type where
  | ok (duration : ℚ)
  | toolFailure
  | unavailable

/-- Source `get_audio_duration` (app_windows.py lines 90-101), as a
function of the probe outcome.  The second component is the error slot of
the returned pair, always `None` in the source. -/
def get_audio_duration (outcome : ProbeOutcome) : ℚ × Option String :=
  match outcome with
  | .ok duration => (duration, none)
  | .toolFailure => (60.0, none)
  | .unavailable => (60.0, none)

/-- A timed SRT entry `(subtitle_index, start_time, end_time, block)` as
appended by `synchronize_with_audio`. -/
abbrev Entry : Type := ℕ × ℚ × ℚ × (String × String)

/-- The start time of an entry. -/
def entryStart (e : Entry) : ℚ := e.2.1

/-- The end time of an entry. -/
def entryEnd (e : Entry) : ℚ := e.2.2.1

/-- The subtitle block of an entry. -/
def entryBlock (e : Entry) : String × String := e.2.2.2

/-- `len(" ".join(block).split())` from `synchronize_with_audio`. -/
def blockWordCount (block : String × String) : ℕ :=
  (pySplit (block.1 ++ " " ++ block.2)).length

/-- The unclamped per-block estimate `total_words / wps` with
`wps = wpm / 60`. -/
def rawBlockDuration (block : String × String) (wpm : ℚ) : ℚ :=
  (blockWordCount block : ℚ) / (wpm / 60)

/-- The clamped per-block estimate
`min(max(total_words / wps, 1.5), 6.0)`, computed identically in the
total-estimation pass and in the normal (sum-fits) emission pass. -/
def blockNaiveDuration (block : String × String) (wpm : ℚ) : ℚ :=
  min (max (rawBlockDuration block wpm) 1.5) 6.0

/-- Source `total_estimated_duration` accumulation (app_windows.py lines
177-188): the sum of the clamped estimates over all blocks of all
sentences. -/
def total_estimated_duration (sentences : List String) (wpm : ℚ) : ℚ :=
  ((sentences.flatMap split_long_sentence).map
    (fun block => blockNaiveDuration block wpm)).sum

/-- Inner block loop of the compression branch (app_windows.py lines
195-215).  State: `(current_time, subtitle_index)`; returns the final
state and the emitted entries.  The `break` leaves the remaining blocks
of this sentence unprocessed. -/
def compressInner (blocks : List (String × String)) (audio_duration ratio wpm : ℚ)
    (current_time : ℚ) (subtitle_index : ℕ) : ℚ × ℕ × List Entry :=
  match blocks with
  | [] => (current_time, subtitle_index, [])
  | block :: rest =>
    let duration := rawBlockDuration block wpm * ratio
    let duration := max duration 1.0
    if current_time ≥ audio_duration then (current_time, subtitle_index, [])
    else
      let duration := min duration (audio_duration - current_time)
      let start_time := current_time
      let end_time := current_time + duration
      let next := compressInner rest audio_duration ratio wpm end_time (subtitle_index + 1)
      (next.1, next.2.1, (subtitle_index, start_time, end_time, block) :: next.2.2)

/-- Inner block loop of the normal (sum-fits) branch (app_windows.py
lines 218-238). -/
def normalInner (blocks : List (String × String)) (audio_duration wpm : ℚ)
    (current_time : ℚ) (subtitle_index : ℕ) : ℚ × ℕ × List Entry :=
  match blocks with
  | [] => (current_time, subtitle_index, [])
  | block :: rest =>
    let duration := blockNaiveDuration block wpm
    if current_time ≥ audio_duration then (current_time, subtitle_index, [])
    else
      let duration := min duration (audio_duration - current_time)
      let start_time := current_time
      let end_time := current_time + duration
      let next := normalInner rest audio_duration wpm end_time (subtitle_index + 1)
      (next.1, next.2.1, (subtitle_index, start_time, end_time, block) :: next.2.2)

/-- Outer sentence loop of the compression branch: each sentence is split
into blocks and fed to the inner loop; the state threads through. -/
def syncCompressOuter (sentences : List String) (audio_duration ratio wpm : ℚ)
    (current_time : ℚ) (subtitle_index : ℕ) : ℚ × ℕ × List Entry :=
  match sentences with
  | [] => (current_time, subtitle_index, [])
  | sentence :: rest =>
    let r := compressInner (split_long_sentence sentence) audio_duration ratio wpm
      current_time subtitle_index
    let r2 := syncCompressOuter rest audio_duration ratio wpm r.1 r.2.1
    (r2.1, r2.2.1, r.2.2 ++ r2.2.2)

/-- Outer sentence loop of the normal (sum-fits) branch. -/
def syncNormalOuter (sentences : List String) (audio_duration wpm : ℚ)
    (current_time : ℚ) (subtitle_index : ℕ) : ℚ × ℕ × List Entry :=
  match sentences with
  | [] => (current_time, subtitle_index, [])
  | sentence :: rest =>
    let r := normalInner (split_long_sentence sentence) audio_duration wpm
      current_time subtitle_index
    let r2 := syncNormalOuter rest audio_duration wpm r.1 r.2.1
    (r2.1, r2.2.1, r.2.2 ++ r2.2.2)

/-- Source `synchronize_with_audio` (app_windows.py lines 167-240):
initial state `current_time = 0.0`, `subtitle_index = 1`; compression
branch when the total estimate exceeds the audio duration, with
`compression_ratio = audio_duration / total_estimated_duration`. -/
def synchronize_with_audio (sentences : List String) (audio_duration : ℚ)
    (wpm : ℚ := 165) : List Entry :=
  let total_estimated := total_estimated_duration sentences wpm
  if total_estimated > audio_duration then
    let compression_ratio := audio_duration / total_estimated
    (syncCompressOuter sentences audio_duration compression_ratio wpm 0 1).2.2
  else
    (syncNormalOuter sentences audio_duration wpm 0 1).2.2

/-- The entry list the sum-fits branch produces: one entry per block in
order, starting at time `t` with index `i`, each entry lasting exactly
its clamped estimate. -/
def idealFrom (blocks : List (String × String)) (wpm : ℚ) (t : ℚ) (i : ℕ) :
    List Entry :=
  match blocks with
  | [] => []
  | b :: rest =>
    (i, t, t + blockNaiveDuration b wpm, b)
      :: idealFrom rest wpm (t + blockNaiveDuration b wpm) (i + 1)

/-- Source `split_into_fixed_chunks` (app_windows.py lines 265-268). -/
def split_into_fixed_chunks (text : String) (chunk_size : ℕ := 4) : List String :=
  let words := pySplit text
  (windows chunk_size words).map (fun chunk => String.intercalate " " chunk)

/-- Source `group_chunks` (app_windows.py lines 270-272). -/
def group_chunks (chunks : List String) (lines_per_block : ℕ := 2) :
    List (List String) :=
  windows lines_per_block chunks

/-- The values computed by the smart / dummy alignment cores: the chunk
list, the grouped blocks, the per-block duration, the total duration, and
the rendered SRT text. -/
structure AlignResult : Type where
  chunks : List String
  blocks : List (List String)
  duration_per_block : ℚ
  total_duration : ℚ
  srt : String

/-- Start and end time of block `i` in the smart / dummy SRT loop
(app_windows.py lines 463-467): `start = i * duration_per_block`,
`end = (i + 1) * duration_per_block`, overridden to `total_duration` for
the last block. -/
def smartEntryTimes (i : ℕ) (duration_per_block total_duration : ℚ)
    (block_count : ℕ) : ℚ × ℚ :=
  let start := (i : ℚ) * duration_per_block
  let stop := ((i : ℚ) + 1) * duration_per_block
  let stop := if i = block_count - 1 then total_duration else stop
  (start, stop)

/-- One iteration of the smart / dummy SRT loop (app_windows.py lines
468-470): the index line, the time-range line, and the newline-joined
block followed by a blank line. -/
def smartSrtLine (i : ℕ) (block : List String) (duration_per_block total_duration : ℚ)
    (block_count : ℕ) : String :=
  let times := smartEntryTimes i duration_per_block total_duration block_count
  toString (i + 1) ++ "\n" ++ format_srt_time times.1 ++ " --> " ++ format_srt_time times.2
    ++ "\n" ++ String.intercalate "\n" block ++ "\n\n"

/-- Core computation of `smart_align_text_with_audio` (app_windows.py
lines 449-474), from the extracted text and the probed audio duration to
the produced SRT text; `none` models the early "No text chunks found"
return. -/
def smart_align_core (text : String) (audio_duration : ℚ) : Option AlignResult :=
  let chunks := split_into_fixed_chunks text 4
  if chunks.isEmpty then none
  else
    let blocks := group_chunks chunks 2
    let block_count := blocks.length
    let min_block_duration : ℚ := 2.0
    let total_min_duration := min_block_duration * (block_count : ℚ)
    let dt :=
      if audio_duration < total_min_duration then
        (min_block_duration, min_block_duration * (block_count : ℚ))
      else
        (audio_duration / (block_count : ℚ), audio_duration)
    let srt := String.join (blocks.enum.map
      (fun p => smartSrtLine p.1 p.2 dt.1 dt.2 block_count))
    some ⟨chunks, blocks, dt.1, dt.2, srt⟩

/-- Core computation of `dummy_align_text_with_audio` (app_windows.py
lines 501-527): the same loop with the fixed `total_time = 60.0` in place
of the probed audio duration. -/
def dummy_align_core (text : String) : Option AlignResult :=
  let chunks := split_into_fixed_chunks text 4
  if chunks.isEmpty then none
  else
    let blocks := group_chunks chunks 2
    let block_count := blocks.length
    let min_block_duration : ℚ := 2.0
    let total_min_duration := min_block_duration * (block_count : ℚ)
    let total_time : ℚ := 60.0
    let dt :=
      if total_time < total_min_duration then
        (min_block_duration, min_block_duration * (block_count : ℚ))
      else
        (total_time / (block_count : ℚ), total_time)
    let srt := String.join (blocks.enum.map
      (fun p => smartSrtLine p.1 p.2 dt.1 dt.2 block_count))
    some ⟨chunks, blocks, dt.1, dt.2, srt⟩

/-- The block list of the smart / dummy pipeline:
`group_chunks(split_into_fixed_chunks(text, 4), 2)`. -/
def smartBlocks (text : String) : List (List String) :=
  group_chunks (split_into_fixed_chunks text 4) 2

/-! ## Helper lemmas -/

/-- A `filterMap` whose function is a guarded `some` is a `filter`
followed by a `map`. -/
lemma filterMap_guard {α β : Type} (f : List α → β) (l : List (List α)) :
    (l.filterMap (fun w => if 4 ≤ w.length then some (f w) else none))
      = (l.filter (fun w => decide (4 ≤ w.length))).map f := by
  induction l with
  | nil => rfl
  | cons w ws ih =>
    by_cases h : 4 ≤ w.length <;> simp [List.filterMap_cons, h, ih]

/-- A nonempty stripped character list contains a non-whitespace
character. -/
lemma stripList_has_nonwhite (l : List Char) (h : stripList l ≠ []) :
    ∃ c ∈ stripList l, c.isWhitespace = false := by
  unfold stripList at *
  set r := (l.dropWhile Char.isWhitespace).reverse.dropWhile Char.isWhitespace with hr
  have hrne : r ≠ [] := by
    intro hnil
    exact h (by rw [← hr] at *; simp [hnil])
  refine ⟨r.head hrne, ?_, ?_⟩
  · exact List.mem_reverse.mpr (List.head_mem hrne)
  · exact List.head_dropWhile_not Char.isWhitespace _ hrne

/-- The clamped per-block duration is at least 1.5 seconds. -/
lemma blockNaiveDuration_ge (block : String × String) (wpm : ℚ) :
    (1.5 : ℚ) ≤ blockNaiveDuration block wpm :=
  le_min (le_max_right _ _) (by norm_num)

/-- The clamped per-block duration is at most 6 seconds. -/
lemma blockNaiveDuration_le (block : String × String) (wpm : ℚ) :
    blockNaiveDuration block wpm ≤ 6.0 :=
  min_le_right _ _

/-- A sum of clamped per-block durations is nonnegative. -/
lemma naiveSum_nonneg (blocks : List (String × String)) (wpm : ℚ) :
    0 ≤ ((blocks.map (fun block => blockNaiveDuration block wpm)).sum) := by
  refine List.sum_nonneg ?_
  intro x hx
  obtain ⟨b, _, rfl⟩ := List.mem_map.mp hx
  linarith [blockNaiveDuration_ge b wpm]

lemma idealFrom_length (blocks : List (String × String)) (wpm : ℚ) (t : ℚ) (i : ℕ) :
    (idealFrom blocks wpm t i).length = blocks.length := by
  induction blocks generalizing t i with
  | nil => rfl
  | cons b rest ih => simp [idealFrom, ih]

lemma idealFrom_append (l1 l2 : List (String × String)) (wpm : ℚ) (t : ℚ) (i : ℕ) :
    idealFrom (l1 ++ l2) wpm t i
      = idealFrom l1 wpm t i
        ++ idealFrom l2 wpm (t + (l1.map (fun b => blockNaiveDuration b wpm)).sum)
            (i + l1.length) := by
  induction l1 generalizing t i with
  | nil => simp [idealFrom]
  | cons b rest ih =>
    simp only [List.cons_append, idealFrom, List.map_cons, List.sum_cons,
      List.length_cons, List.append_eq]
    rw [ih]
    have h1 : t + blockNaiveDuration b wpm
        + (rest.map (fun b => blockNaiveDuration b wpm)).sum
        = t + (blockNaiveDuration b wpm
            + (rest.map (fun b => blockNaiveDuration b wpm)).sum) := by ring
    have h2 : i + 1 + rest.length = i + (rest.length + 1) := by omega
    rw [h1, h2]

lemma getLast?_cons_ne {α : Type} (a : α) (l : List α) (h : l ≠ []) :
    (a :: l).getLast? = l.getLast? := by
  cases l with
  | nil => exact absurd rfl h
  | cons x xs => exact List.getLast?_cons_cons

lemma idealFrom_lastEnd (blocks : List (String × String)) (wpm : ℚ) (t : ℚ) (i : ℕ)
    (h : blocks ≠ []) :
    ((idealFrom blocks wpm t i).getLast?).map entryEnd
      = some (t + (blocks.map (fun b => blockNaiveDuration b wpm)).sum) := by
  induction blocks generalizing t i with
  | nil => exact absurd rfl h
  | cons b rest ih =>
    cases rest with
    | nil => simp [idealFrom, entryEnd]
    | cons b2 r2 =>
      rw [idealFrom, getLast?_cons_ne _ _ (by simp [idealFrom])]
      rw [ih _ _ (by simp)]
      simp only [List.map_cons, List.sum_cons]
      rw [add_assoc]

/-- In the sum-fits branch the remaining budget never truncates a block:
if the accumulated time plus the clamped durations of the remaining
blocks fits under the target, the inner loop emits every block with
exactly its clamped duration. -/
lemma normalInner_fits (blocks : List (String × String)) (target wpm : ℚ)
    (current : ℚ) (idx : ℕ)
    (h : current + (blocks.map (fun b => blockNaiveDuration b wpm)).sum ≤ target) :
    normalInner blocks target wpm current idx
      = (current + (blocks.map (fun b => blockNaiveDuration b wpm)).sum,
         idx + blocks.length, idealFrom blocks wpm current idx) := by
  induction blocks generalizing current idx with
  | nil => simp [normalInner, idealFrom]
  | cons b rest ih =>
    simp only [List.map_cons, List.sum_cons] at h
    have hd := blockNaiveDuration_ge b wpm
    have hrest := naiveSum_nonneg rest wpm
    have hlt : ¬ current ≥ target := by
      simp only [ge_iff_le, not_le]
      nlinarith
    have hmin : min (blockNaiveDuration b wpm) (target - current)
        = blockNaiveDuration b wpm := min_eq_left (by linarith)
    simp only [normalInner]
    rw [if_neg hlt, hmin,
      ih (current + blockNaiveDuration b wpm) (idx + 1) (by linarith)]
    simp only [idealFrom, List.length_cons, List.map_cons, List.sum_cons]
    have h1 : current + blockNaiveDuration b wpm
        + (rest.map (fun b => blockNaiveDuration b wpm)).sum
        = current + (blockNaiveDuration b wpm
            + (rest.map (fun b => blockNaiveDuration b wpm)).sum) := by ring
    have h2 : idx + 1 + rest.length = idx + (rest.length + 1) := by omega
    rw [h1, h2]

/-- Outer-loop version of `normalInner_fits`: over the whole sentence
list, the sum-fits branch emits exactly the ideal entry list. -/
lemma syncNormalOuter_fits (sentences : List String) (target wpm : ℚ)
    (current : ℚ) (idx : ℕ)
    (h : current + ((sentences.flatMap split_long_sentence).map
        (fun b => blockNaiveDuration b wpm)).sum ≤ target) :
    syncNormalOuter sentences target wpm current idx
      = (current + ((sentences.flatMap split_long_sentence).map
            (fun b => blockNaiveDuration b wpm)).sum,
         idx + (sentences.flatMap split_long_sentence).length,
         idealFrom (sentences.flatMap split_long_sentence) wpm current idx) := by
  induction sentences generalizing current idx with
  | nil => simp [syncNormalOuter, idealFrom]
  | cons s rest ih =>
    have hflat : (s :: rest).flatMap split_long_sentence
        = split_long_sentence s ++ rest.flatMap split_long_sentence := by
      simp [List.flatMap_cons]
    rw [hflat] at h ⊢
    simp only [List.map_append, List.sum_append] at h ⊢
    have hs2 := naiveSum_nonneg (rest.flatMap split_long_sentence) wpm
    have h1 : current + ((split_long_sentence s).map
        (fun b => blockNaiveDuration b wpm)).sum ≤ target := by linarith
    simp only [syncNormalOuter]
    rw [normalInner_fits _ _ _ _ _ h1]
    rw [ih (current + ((split_long_sentence s).map
        (fun b => blockNaiveDuration b wpm)).sum) (idx + (split_long_sentence s).length)
      (by linarith)]
    rw [idealFrom_append]
    have h2 : current + ((split_long_sentence s).map (fun b => blockNaiveDuration b wpm)).sum
        + ((rest.flatMap split_long_sentence).map (fun b => blockNaiveDuration b wpm)).sum
        = current + (((split_long_sentence s).map (fun b => blockNaiveDuration b wpm)).sum
            + ((rest.flatMap split_long_sentence).map (fun b => blockNaiveDuration b wpm)).sum) := by
      ring
    have h3 : idx + (split_long_sentence s).length
        + (rest.flatMap split_long_sentence).length
        = idx + ((split_long_sentence s).length
            + (rest.flatMap split_long_sentence).length) := by omega
    rw [h2, h3]
    simp

/-- Entries emitted by the compression inner loop end no later than the
target and last exactly the scaled, 1.0-floored, budget-truncated
duration of their block. -/
lemma compressInner_entries (blocks : List (String × String))
    (target ratio wpm current : ℚ) (idx : ℕ) :
    ∀ e ∈ (compressInner blocks target ratio wpm current idx).2.2,
      entryEnd e ≤ target
      ∧ entryEnd e = entryStart e
          + min (max (rawBlockDuration (entryBlock e) wpm * ratio) 1.0)
            (target - entryStart e) := by
  induction blocks generalizing current idx with
  | nil => simp [compressInner]
  | cons b rest ih =>
    by_cases hc : current ≥ target
    · simp [compressInner, if_pos hc]
    · simp only [compressInner, if_neg hc]
      intro e he
      rcases List.mem_cons.mp he with he | he
      · subst he
        refine ⟨?_, rfl⟩
        have h1 : min (max (rawBlockDuration b wpm * ratio) 1.0) (target - current)
            ≤ target - current := min_le_right _ _
        show current + min (max (rawBlockDuration b wpm * ratio) 1.0)
            (target - current) ≤ target
        linarith
      · exact ih _ _ e he

/-- Once the running time has reached the target, the compression inner
loop emits nothing and leaves the state unchanged. -/
lemma compressInner_stop (blocks : List (String × String))
    (target ratio wpm current : ℚ) (idx : ℕ) (h : current ≥ target) :
    compressInner blocks target ratio wpm current idx = (current, idx, []) := by
  cases blocks with
  | nil => rfl
  | cons b rest => simp [compressInner, if_pos h]

/-- Once the running time has reached the target, the whole remaining
compression pipeline emits nothing. -/
lemma syncCompressOuter_stop (sentences : List String)
    (target ratio wpm current : ℚ) (idx : ℕ) (h : current ≥ target) :
    syncCompressOuter sentences target ratio wpm current idx = (current, idx, []) := by
  induction sentences with
  | nil => rfl
  | cons s rest ih =>
    simp only [syncCompressOuter]
    rw [compressInner_stop _ _ _ _ _ _ h]
    rw [ih]
    simp

/-- Outer-loop version of `compressInner_entries`. -/
lemma syncCompressOuter_entries (sentences : List String)
    (target ratio wpm current : ℚ) (idx : ℕ) :
    ∀ e ∈ (syncCompressOuter sentences target ratio wpm current idx).2.2,
      entryEnd e ≤ target
      ∧ entryEnd e = entryStart e
          + min (max (rawBlockDuration (entryBlock e) wpm * ratio) 1.0)
            (target - entryStart e) := by
  induction sentences generalizing current idx with
  | nil => simp [syncCompressOuter]
  | cons s rest ih =>
    simp only [syncCompressOuter]
    intro e he
    rcases List.mem_append.mp he with he | he
    · exact compressInner_entries _ _ _ _ _ _ e he
    · exact ih _ _ e he

/-! ## Claim theorems -/

/-- C5 counterexample: the decimal 3661.999 is not representable in
binary64, so the program's `format_srt_time(3661.999)` actually receives
the nearest double `fl3661999 = 3661.99899999999979...`, which lies
strictly below the decimal and strictly within half an ulp (`2⁻⁴²`) of
it.  The millisecond product at that value, `2196824232296000 × 2⁻⁴¹`,
is exactly representable (its numerator is below `2⁵³`), so no further
float rounding intervenes, and truncation yields milliseconds 998: the
program prints `"01:01:01,998"`, not the `"01:01:01,999"` the claim
asserts. -/
theorem format_srt_time_3661999_cex :
    fl3661999 ≠ (3661.999 : ℚ)
    ∧ fl3661999 < (3661.999 : ℚ)
    ∧ (3661.999 : ℚ) - fl3661999 < 1 / 2 ^ 42
    ∧ fl3661999 - 3661 = 2196824232296 / 2 ^ 41
    ∧ (fl3661999 - 3661) * 1000 = 2196824232296000 / 2 ^ 41
    ∧ (2196824232296000 : ℚ) < 2 ^ 53
    ∧ format_srt_time fl3661999 = "01:01:01,998"
    ∧ format_srt_time fl3661999 ≠ "01:01:01,999" := by
  have hfmt : format_srt_time fl3661999 = "01:01:01,998" := by
    norm_num [format_srt_time, pyMod, fl3661999]
    decide
  refine ⟨by norm_num [fl3661999], by norm_num [fl3661999], by norm_num [fl3661999],
    by norm_num [fl3661999], by norm_num [fl3661999], by norm_num, hfmt, ?_⟩
  rw [hfmt]
  decide

/-- C5 amended: `format_srt_time` is a pure function of the seconds value
computing `hours = floor(s/3600)`, `minutes = floor((s mod 3600)/60)`,
`seconds = floor(s mod 60)`, `millis = floor((s mod 1) * 1000)`,
zero-padded as `HH:MM:SS,mmm` with milliseconds truncated, not rounded;
in particular `format(0.0) = "00:00:00,000"`, while the literal 3661.999
is not representable in binary64: the program receives the nearest double
`3661.99899999999979...` (strictly below the decimal, within half an
ulp), for which truncation yields `"01:01:01,998"`, not
`"01:01:01,999"`. -/
theorem format_srt_time_matches_spec :
    (∀ s : ℚ, format_srt_time s = format_srt_time_spec s)
    ∧ format_srt_time 0 = "00:00:00,000"
    ∧ fl3661999 < (3661.999 : ℚ)
    ∧ (3661.999 : ℚ) - fl3661999 < 1 / 2 ^ 42
    ∧ format_srt_time fl3661999 = "01:01:01,998" := by
  refine ⟨fun s => rfl, ?_, by norm_num [fl3661999], by norm_num [fl3661999], ?_⟩
  · norm_num [format_srt_time, pyMod]
    decide
  · norm_num [format_srt_time, pyMod, fl3661999]
    decide

/-- C8: when the audio-duration probe fails (nonzero return code) or the
probing tool is unavailable (exception), `get_audio_duration` returns the
default 60.0 seconds paired with no error, instead of raising. -/
theorem get_audio_duration_default_on_failure (o : ProbeOutcome)
    (h : o = ProbeOutcome.toolFailure ∨ o = ProbeOutcome.unavailable) :
    get_audio_duration o = (60.0, none) := by
  rcases h with h | h <;> subst h <;> rfl

/-- Witness for C8 at the concrete failing outcome. -/
theorem get_audio_duration_default_on_failure_witness :
    get_audio_duration ProbeOutcome.toolFailure = (60.0, none) :=
  get_audio_duration_default_on_failure ProbeOutcome.toolFailure (Or.inl rfl)

/-- C4: for every word count and every positive wpm, `estimate_duration`
returns `word_count / (wpm/60)` clamped into `[1.5, 6.0]` seconds; a zero
word count yields the floor 1.5 seconds, and the divisor `wpm / 60` is
positive, so no division by zero occurs. -/
theorem estimate_duration_clamped (text : String) (wpm : ℚ) (hwpm : 0 < wpm) :
    estimate_duration text wpm
      = min (max (((pySplit text).length : ℚ) / (wpm / 60)) 1.5) 6.0
    ∧ 1.5 ≤ estimate_duration text wpm
    ∧ estimate_duration text wpm ≤ 6.0
    ∧ ((pySplit text).length = 0 → estimate_duration text wpm = 1.5)
    ∧ 0 < wpm / 60 := by
  refine ⟨rfl, ?_, ?_, ?_, by positivity⟩
  · exact le_min (le_max_right _ _) (by norm_num)
  · exact min_le_right _ _
  · intro h
    show min (max (((pySplit text).length : ℚ) / (wpm / 60)) 1.5) 6.0 = 1.5
    rw [h]
    norm_num

/-- Witness for C4: empty text at wpm 165 yields the 1.5-second floor. -/
theorem estimate_duration_clamped_witness :
    (0 : ℚ) < 165 ∧ estimate_duration "" 165 = 1.5 :=
  ⟨by norm_num, (estimate_duration_clamped "" 165 (by norm_num)).2.2.2.1 (by decide)⟩

/-- C7: for every tokenizer and every input text,
`split_text_into_sentences` returns no empty or whitespace-only entries
(each entry is nonempty and contains a non-whitespace character), and an
input that is empty or whitespace-only after trimming yields `[]`. -/
theorem split_text_into_sentences_no_blank (tokenize : String → List String)
    (text : String) :
    (∀ e ∈ split_text_into_sentences tokenize text,
       e ≠ "" ∧ ∃ c ∈ e.data, c.isWhitespace = false)
    ∧ (pyStrip text = "" → split_text_into_sentences tokenize text = []) := by
  constructor
  · intro e he
    unfold split_text_into_sentences at he
    split at he
    · simp at he
    · obtain ⟨s, hs, rfl⟩ := List.mem_map.mp he
      have hs' : pyStrip s ≠ "" := by
        have := (List.mem_filter.mp hs).2
        simpa using this
      have hne : stripList s.data ≠ [] := by
        intro hnil
        exact hs' (by unfold pyStrip; rw [hnil])
      obtain ⟨c, hc, hcw⟩ := stripList_has_nonwhite s.data hne
      refine ⟨?_, ⟨c, hc, hcw⟩⟩
      intro habs
      exact hne (congrArg String.data habs)
  · intro h
    unfold split_text_into_sentences
    rw [if_pos h]

/-- Witness for C7: a whitespace-only input yields the empty sequence. -/
theorem split_text_into_sentences_no_blank_witness :
    split_text_into_sentences (fun s => [s]) " " = [] :=
  (split_text_into_sentences_no_blank (fun s => [s]) " ").2 (by decide)

/-- C6: the dummy alignment core computes exactly the same chunking,
block grouping, per-block durations, total duration and SRT text as the
smart alignment core on the same text with the probed audio duration
replaced by the constant 60.0 seconds. -/
theorem dummy_align_eq_smart_at_60 (text : String) :
    dummy_align_core text = smart_align_core text 60.0 := rfl

/-- C3 counterexample: the 9-word sentence `"a b c d e f g h i"` has two
8-word windows, but `split_long_sentence` produces only one block and the
ninth word `"i"` appears in no produced block: the final short window is
dropped, contradicting the claim that every window yields a block and no
word is omitted. -/
theorem split_long_sentence_drops_tail :
    (pySplit "a b c d e f g h i").length = 9
    ∧ (windows 8 (pySplit "a b c d e f g h i")).length = 2
    ∧ split_long_sentence "a b c d e f g h i" = [("a b c d", "e f g h")]
    ∧ ∀ block ∈ split_long_sentence "a b c d e f g h i",
        "i" ∉ pySplit (block.1 ++ " " ++ block.2) := by
  decide

/-- C3 amended: for a sentence with at least 8 whitespace-delimited
words, `split_long_sentence` produces exactly one block per 8-word window
that has at least 4 words (line1 = its first 4 words, line2 = its next up
to 4 words), in window order; windows with fewer than 4 words (the
trailing 1-3 leftover words when the word count is 1, 2 or 3 mod 8)
produce no block, so those trailing words are omitted. -/
theorem split_long_sentence_window_blocks (s : String)
    (h : 8 ≤ (pySplit s).length) :
    split_long_sentence s
      = ((windows 8 (pySplit s)).filter (fun w => decide (4 ≤ w.length))).map
          (fun w => (String.intercalate " " (w.take 4),
            String.intercalate " " ((w.drop 4).take 4)))
    ∧ ∀ w ∈ windows 8 (pySplit s), 4 ≤ w.length →
        (String.intercalate " " (w.take 4),
          String.intercalate " " ((w.drop 4).take 4)) ∈ split_long_sentence s := by
  have heq : split_long_sentence s
      = ((windows 8 (pySplit s)).filter (fun w => decide (4 ≤ w.length))).map
          (fun w => (String.intercalate " " (w.take 4),
            String.intercalate " " ((w.drop 4).take 4))) := by
    unfold split_long_sentence
    rw [if_pos h]
    exact filterMap_guard _ _
  refine ⟨heq, fun w hw hlen => ?_⟩
  rw [heq]
  exact List.mem_map_of_mem _ (List.mem_filter.mpr ⟨hw, by simpa using hlen⟩)

/-- Witness for the amended C3 at a concrete 9-word sentence. -/
theorem split_long_sentence_window_blocks_witness :
    8 ≤ (pySplit "a b c d e f g h i").length
    ∧ split_long_sentence "a b c d e f g h i"
      = ((windows 8 (pySplit "a b c d e f g h i")).filter
          (fun w => decide (4 ≤ w.length))).map
          (fun w => (String.intercalate " " (w.take 4),
            String.intercalate " " ((w.drop 4).take 4))) :=
  ⟨by decide, (split_long_sentence_window_blocks "a b c d e f g h i" (by decide)).1⟩

/-! ## Concrete-evaluation helpers -/

lemma clamp_of_le (x : ℚ) (h : x ≤ 1.5) : min (max x 1.5) 6.0 = 1.5 := by
  rw [max_eq_right h]
  exact min_eq_left (by norm_num)

lemma clamp_of_between (x : ℚ) (h1 : 1.5 ≤ x) (h2 : x ≤ 6.0) :
    min (max x 1.5) 6.0 = x := by
  rw [max_eq_left h1]
  exact min_eq_left h2

lemma bnd_hello : blockNaiveDuration ("hello world", "") 165 = 3 / 2 := by
  have hwc : blockWordCount ("hello world", "") = 2 := by decide
  unfold blockNaiveDuration rawBlockDuration
  rw [hwc, clamp_of_le _ (by norm_num)]
  norm_num

lemma ted_hello : total_estimated_duration ["hello world"] 165 = 3 / 2 := by
  have hflat : (["hello world"] : List String).flatMap split_long_sentence
      = [("hello world", "")] := by decide
  unfold total_estimated_duration
  rw [hflat]
  simp [bnd_hello]

lemma bnd_eight : blockNaiveDuration ("a b c d", "e f g h") 165 = 32 / 11 := by
  have hwc : blockWordCount ("a b c d", "e f g h") = 8 := by decide
  unfold blockNaiveDuration rawBlockDuration
  rw [hwc, clamp_of_between _ (by norm_num) (by norm_num)]
  norm_num

lemma ted_two_eights :
    total_estimated_duration ["a b c d e f g h", "a b c d e f g h"] 165 = 64 / 11 := by
  have hflat : (["a b c d e f g h", "a b c d e f g h"] : List String).flatMap
      split_long_sentence = [("a b c d", "e f g h"), ("a b c d", "e f g h")] := by decide
  unfold total_estimated_duration
  rw [hflat]
  simp [bnd_eight]
  norm_num

/-- C9: for every sentence list whose derived block sequence is nonempty
and whose clamped per-block durations sum to at most the target,
`synchronize_with_audio` emits exactly one entry per block in input
order, entries are contiguous starting at time 0, each entry lasts
exactly its block's clamped estimate (the remaining-budget truncation
never fires) — the output is exactly `idealFrom` of the block list — and
the last entry's end equals the sum of the clamped durations. -/
theorem sync_sum_fits_structure (sentences : List String) (target wpm : ℚ)
    (hne : sentences.flatMap split_long_sentence ≠ [])
    (hfit : total_estimated_duration sentences wpm ≤ target) :
    synchronize_with_audio sentences target wpm
      = idealFrom (sentences.flatMap split_long_sentence) wpm 0 1
    ∧ (synchronize_with_audio sentences target wpm).length
        = (sentences.flatMap split_long_sentence).length
    ∧ ((synchronize_with_audio sentences target wpm).getLast?).map entryEnd
        = some (total_estimated_duration sentences wpm) := by
  have hbranch : ¬ total_estimated_duration sentences wpm > target := not_lt.mpr hfit
  have hsum : (0 : ℚ) + ((sentences.flatMap split_long_sentence).map
      (fun b => blockNaiveDuration b wpm)).sum ≤ target := by
    rw [zero_add]
    exact hfit
  have hmain := syncNormalOuter_fits sentences target wpm 0 1 hsum
  have hsync : synchronize_with_audio sentences target wpm
      = idealFrom (sentences.flatMap split_long_sentence) wpm 0 1 := by
    simp only [synchronize_with_audio]
    rw [if_neg hbranch, hmain]
  refine ⟨hsync, ?_, ?_⟩
  · rw [hsync, idealFrom_length]
  · rw [hsync, idealFrom_lastEnd _ _ _ _ hne, zero_add]
    rfl

/-- Witness for C9 at a single two-word sentence and target 10. -/
theorem sync_sum_fits_structure_witness :
    (["hello world"] : List String).flatMap split_long_sentence ≠ []
    ∧ total_estimated_duration ["hello world"] 165 ≤ 10
    ∧ ((synchronize_with_audio ["hello world"] 10 165).getLast?).map entryEnd
        = some (total_estimated_duration ["hello world"] 165) := by
  have h1 : (["hello world"] : List String).flatMap split_long_sentence ≠ [] := by
    decide
  have h2 : total_estimated_duration ["hello world"] 165 ≤ 10 := by
    rw [ted_hello]
    norm_num
  exact ⟨h1, h2, (sync_sum_fits_structure ["hello world"] 10 165 h1 h2).2.2⟩

/-- C1 counterexample: for the single two-word sentence `"hello world"`
(one block, clamped duration 1.5s) and target 10, `naive_total = 1.5 ≤
10`, yet the last emitted entry ends at 1.5, not at the target 10: the
claimed absorption of residual slack into the last entry does not
happen. -/
theorem sync_no_slack_absorption_cex :
    total_estimated_duration ["hello world"] 165 ≤ 10
    ∧ synchronize_with_audio ["hello world"] 10 165
        = [(1, 0, 3 / 2, ("hello world", ""))]
    ∧ ((synchronize_with_audio ["hello world"] 10 165).getLast?).map entryEnd
        ≠ some 10 := by
  have hflat : (["hello world"] : List String).flatMap split_long_sentence
      = [("hello world", "")] := by decide
  have h2 : total_estimated_duration ["hello world"] 165 ≤ 10 := by
    rw [ted_hello]
    norm_num
  have hbranch : ¬ total_estimated_duration ["hello world"] 165 > 10 := not_lt.mpr h2
  have hsum : (0 : ℚ) + (((["hello world"] : List String).flatMap
      split_long_sentence).map (fun b => blockNaiveDuration b 165)).sum ≤ 10 := by
    rw [zero_add]
    exact h2
  have hmain := syncNormalOuter_fits ["hello world"] 10 165 0 1 hsum
  have hsync : synchronize_with_audio ["hello world"] 10 165
      = idealFrom [("hello world", "")] 165 0 1 := by
    simp only [synchronize_with_audio]
    rw [if_neg hbranch, hmain, hflat]
  have hideal : idealFrom [("hello world", "")] 165 0 1
      = [(1, 0, 3 / 2, ("hello world", ""))] := by
    simp [idealFrom, bnd_hello]
  refine ⟨h2, hsync.trans hideal, ?_⟩
  rw [hsync, hideal]
  simp [entryEnd]
  norm_num

/-- C1 amended: for every nonempty block sequence whose naive_total is at
most the target, `synchronize_with_audio` assigns each block its clamped
duration in sequence (the output is exactly the ideal entry list), and
the last emitted entry's end equals naive_total — the sum of the clamped
durations — not the target; no residual slack is absorbed, so the last
end equals the target exactly when naive_total equals the target. -/
theorem sync_sum_fits_last_end (sentences : List String) (target wpm : ℚ)
    (hne : sentences.flatMap split_long_sentence ≠ [])
    (hfit : total_estimated_duration sentences wpm ≤ target) :
    synchronize_with_audio sentences target wpm
      = idealFrom (sentences.flatMap split_long_sentence) wpm 0 1
    ∧ ((synchronize_with_audio sentences target wpm).getLast?).map entryEnd
        = some (total_estimated_duration sentences wpm)
    ∧ (((synchronize_with_audio sentences target wpm).getLast?).map entryEnd
          = some target ↔ total_estimated_duration sentences wpm = target) := by
  have hbranch : ¬ total_estimated_duration sentences wpm > target := not_lt.mpr hfit
  have hsum : (0 : ℚ) + ((sentences.flatMap split_long_sentence).map
      (fun b => blockNaiveDuration b wpm)).sum ≤ target := by
    rw [zero_add]
    exact hfit
  have hmain := syncNormalOuter_fits sentences target wpm 0 1 hsum
  have hsync : synchronize_with_audio sentences target wpm
      = idealFrom (sentences.flatMap split_long_sentence) wpm 0 1 := by
    simp only [synchronize_with_audio]
    rw [if_neg hbranch, hmain]
  have hlast : ((synchronize_with_audio sentences target wpm).getLast?).map entryEnd
      = some (total_estimated_duration sentences wpm) := by
    rw [hsync, idealFrom_lastEnd _ _ _ _ hne, zero_add]
    rfl
  refine ⟨hsync, hlast, ?_, ?_⟩
  · intro h
    rw [hlast] at h
    exact Option.some.inj h
  · intro h
    rw [hlast, h]

/-- Witness for the amended C1. -/
theorem sync_sum_fits_last_end_witness :
    (["hello world"] : List String).flatMap split_long_sentence ≠ []
    ∧ total_estimated_duration ["hello world"] 165 ≤ 12
    ∧ ((synchronize_with_audio ["hello world"] 12 165).getLast?).map entryEnd
        = some (total_estimated_duration ["hello world"] 165) := by
  have h1 : (["hello world"] : List String).flatMap split_long_sentence ≠ [] := by
    decide
  have h2 : total_estimated_duration ["hello world"] 165 ≤ 12 := by
    rw [ted_hello]
    norm_num
  exact ⟨h1, h2, (sync_sum_fits_last_end ["hello world"] 12 165 h1 h2).2.1⟩

/-- C2: when the total clamped estimate exceeds the target,
`synchronize_with_audio` scales each block's raw estimated duration by
`ratio = target / naive_total`, re-floors each scaled duration at 1.0
second without re-applying the 6.0-second ceiling, truncates to the
remaining budget, keeps every emitted entry's end at or below the
target, and emits no further entries once the running time reaches the
target (remaining sentences and blocks are dropped). -/
theorem sync_compress_bounds (sentences : List String) (target wpm : ℚ)
    (h : total_estimated_duration sentences wpm > target) :
    (∀ e ∈ synchronize_with_audio sentences target wpm,
       entryEnd e ≤ target
       ∧ entryEnd e = entryStart e
           + min (max (rawBlockDuration (entryBlock e) wpm
               * (target / total_estimated_duration sentences wpm)) 1.0)
             (target - entryStart e))
    ∧ (∀ (rest : List String) (current : ℚ) (idx : ℕ), current ≥ target →
         syncCompressOuter rest target
           (target / total_estimated_duration sentences wpm) wpm current idx
           = (current, idx, [])) := by
  constructor
  · intro e he
    simp only [synchronize_with_audio] at he
    rw [if_pos h] at he
    exact syncCompressOuter_entries sentences target
      (target / total_estimated_duration sentences wpm) wpm 0 1 e he
  · intro rest current idx hc
    exact syncCompressOuter_stop rest target
      (target / total_estimated_duration sentences wpm) wpm current idx hc

/-- Witness for C2 at two 8-word sentences against a 2-second target. -/
theorem sync_compress_bounds_witness :
    total_estimated_duration ["a b c d e f g h", "a b c d e f g h"] 165 > 2
    ∧ ∀ e ∈ synchronize_with_audio ["a b c d e f g h", "a b c d e f g h"] 2 165,
        entryEnd e ≤ 2 := by
  have hh : total_estimated_duration ["a b c d e f g h", "a b c d e f g h"] 165 > 2 := by
    rw [ted_two_eights]
    norm_num
  exact ⟨hh, fun e he =>
    ((sync_compress_bounds ["a b c d e f g h", "a b c d e f g h"] 2 165 hh).1 e he).1⟩

/-- A nonempty chunk list yields a nonempty block list. -/
lemma smartBlocks_ne_nil (text : String)
    (hch : split_into_fixed_chunks text 4 ≠ []) : smartBlocks text ≠ [] := by
  unfold smartBlocks group_chunks windows
  cases hc : split_into_fixed_chunks text 4 with
  | nil => exact absurd hc hch
  | cons a l => simp [windowsGo]

/-- When the target duration is under the 2-second-per-block minimum, the
smart core uses the 2.0-second floor per block and a total of 2.0 times
the block count, which exceeds the target. -/
lemma smart_core_min (text : String) (ad : ℚ)
    (hch : split_into_fixed_chunks text 4 ≠ [])
    (hlow : ad < 2.0 * ((smartBlocks text).length : ℚ)) :
    ∃ r : AlignResult, smart_align_core text ad = some r
      ∧ r.duration_per_block = 2.0
      ∧ r.total_duration = 2.0 * ((smartBlocks text).length : ℚ)
      ∧ ad < r.total_duration := by
  have hE : (split_into_fixed_chunks text 4).isEmpty = false := by
    cases hc : split_into_fixed_chunks text 4 with
    | nil => exact absurd hc hch
    | cons a l => rfl
  have hlow' : ad < 2.0 * ((group_chunks (split_into_fixed_chunks text 4) 2).length : ℚ) :=
    hlow
  simp only [smart_align_core]
  rw [if_neg (by simp [hE]), if_pos hlow']
  exact ⟨_, rfl, rfl, rfl, hlow⟩

/-- C10: in the smart variant, whenever the probed audio duration is
less than 2.0 seconds times the block count, every block is assigned
exactly 2.0 seconds and the final entry's end equals 2.0 times the block
count, which strictly exceeds the probed audio duration (the subtitle
timeline overruns the audio); the same holds for the dummy variant with
the 60.0-second constant in place of the probed duration. -/
theorem smart_min_duration_overrun (text : String) (audio_duration : ℚ)
    (hch : split_into_fixed_chunks text 4 ≠ [])
    (hlow : audio_duration < 2.0 * ((smartBlocks text).length : ℚ)) :
    (∃ r : AlignResult, smart_align_core text audio_duration = some r
       ∧ r.duration_per_block = 2.0
       ∧ r.total_duration = 2.0 * ((smartBlocks text).length : ℚ)
       ∧ audio_duration < r.total_duration)
    ∧ (∀ i < (smartBlocks text).length,
        (smartEntryTimes i 2.0 (2.0 * ((smartBlocks text).length : ℚ))
            ((smartBlocks text).length)).2
          - (smartEntryTimes i 2.0 (2.0 * ((smartBlocks text).length : ℚ))
              ((smartBlocks text).length)).1 = 2.0)
    ∧ (smartEntryTimes ((smartBlocks text).length - 1) 2.0
        (2.0 * ((smartBlocks text).length : ℚ)) ((smartBlocks text).length)).2
        = 2.0 * ((smartBlocks text).length : ℚ)
    ∧ ((60.0 : ℚ) < 2.0 * ((smartBlocks text).length : ℚ) →
        ∃ r : AlignResult, dummy_align_core text = some r
          ∧ r.duration_per_block = 2.0
          ∧ r.total_duration = 2.0 * ((smartBlocks text).length : ℚ)
          ∧ (60.0 : ℚ) < r.total_duration) := by
  refine ⟨smart_core_min text audio_duration hch hlow, ?_, ?_, ?_⟩
  · intro i hi
    have hbc : 1 ≤ (smartBlocks text).length := by omega
    simp only [smartEntryTimes]
    by_cases hl : i = (smartBlocks text).length - 1
    · rw [if_pos hl, hl, Nat.cast_sub hbc, Nat.cast_one]
      ring
    · rw [if_neg hl]
      ring
  · simp [smartEntryTimes]
  · intro h60
    have hd : dummy_align_core text = smart_align_core text 60.0 := rfl
    rw [hd]
    exact smart_core_min text 60.0 hch h60

/-- Witness for C10 at an 8-word text (one block) and a 1-second audio
duration. -/
theorem smart_min_duration_overrun_witness :
    split_into_fixed_chunks "a b c d e f g h" 4 ≠ []
    ∧ (1 : ℚ) < 2.0 * ((smartBlocks "a b c d e f g h").length : ℚ)
    ∧ ∃ r : AlignResult, smart_align_core "a b c d e f g h" 1 = some r
        ∧ r.duration_per_block = 2.0
        ∧ r.total_duration = 2.0 * ((smartBlocks "a b c d e f g h").length : ℚ)
        ∧ (1 : ℚ) < r.total_duration := by
  have h1 : split_into_fixed_chunks "a b c d e f g h" 4 ≠ [] := by decide
  have hbc : (smartBlocks "a b c d e f g h").length = 1 := by decide
  have h2 : (1 : ℚ) < 2.0 * ((smartBlocks "a b c d e f g h").length : ℚ) := by
    rw [hbc]
    norm_num
  exact ⟨h1, h2, (smart_min_duration_overrun "a b c d e f g h" 1 h1 h2).1⟩

end AeneasAligner
